import Mathlib

/-!
Shallow embedding of the resource-identifier codec of the go-sourcegraph
client library (src/sourcegraph/repositories.go and src/sourcegraph/deltas.go).

Go strings are byte sequences; we model them as lists of naturals, one
per byte.  String literals from the source are rendered with goStr (all
literals in the codec are ASCII, so bytes and code points agree).
Functions that can panic in Go are modelled with Option (none = panic);
functions returning a (value, error) pair whose value is discarded by
every caller on error are modelled with Except String.
-/

/-- Model of a Go string: its list of bytes. -/
abbrev GoString := List Nat

deriving instance DecidableEq for Except

/-- Bytes of an ASCII string literal from the source. -/
def goStr (s : String) : GoString := s.toList.map Char.toNat

/-- RepoSpec (repositories.go lines 117-120): a repository identified by
URI or by numeric RID.  Go int is modelled by Int (64-bit range side
conditions appear in validity predicates). -/
structure RepoSpec where
  URI : GoString
  RID : Int
deriving DecidableEq

/-- Index of the first occurrence of sub in s (Go strings.Index), none
when absent (Go returns -1). -/
def goIndexAux (sub : GoString) : GoString → Option Nat
  | [] => if sub.isPrefixOf [] then some 0 else none
  | c :: t => if sub.isPrefixOf (c :: t) then some 0 else (goIndexAux sub t).map (fun i => i + 1)

/-- Whether sub occurs inside s. -/
def hasSub (s sub : GoString) : Bool := (goIndexAux sub s).isSome

/-- Split of the Rev route variable at the first "===" occurrence, as done
inline in UnmarshalRepoRevSpec (repositories.go lines 247-253): no
occurrence leaves the whole token as rev, otherwise rev is the part
before and commitID the part after the separator. -/
def splitRevToken (revStr : GoString) : GoString × GoString :=
  match goIndexAux (goStr "===") revStr with
  | none => (revStr, [])
  | some i => (revStr.take i, revStr.drop (i + 3))

/-- Value of a nonempty all-digit byte string, none otherwise. -/
def digitsVal (l : GoString) : Option Nat :=
  if l = [] then none
  else if l.all (fun c => decide (48 ≤ c ∧ c ≤ 57)) then
    some (l.foldl (fun acc c => acc * 10 + (c - 48)) 0)
  else none

/-- Model of Go strconv.Atoi: optional sign, decimal digits, 64-bit int
range check.  On any error the Go caller in this codec propagates the
error and discards the partial value, so Except drops it. -/
def goAtoi (s : GoString) : Except String Int :=
  match s with
  | [] => .error "invalid syntax"
  | c :: rest =>
    let ds := if c = 43 ∨ c = 45 then rest else c :: rest
    match digitsVal ds with
    | none => .error "invalid syntax"
    | some n =>
      if c = 45 then
        if (n : Int) ≤ 2 ^ 63 then .ok (-(n : Int)) else .error "value out of range"
      else
        if (n : Int) < 2 ^ 63 then .ok (n : Int) else .error "value out of range"

/-- Decimal digit bytes of n, most significant first; fuel-based so that
the kernel can evaluate it (fuel bounds the number of digits). -/
def decDigitsAux : Nat → Nat → GoString
  | 0, _ => []
  | fuel + 1, n => if n = 0 then [] else decDigitsAux fuel (n / 10) ++ [48 + n % 10]

/-- Decimal digits of n (most significant first), as bytes. -/
def natToDecimal (n : Nat) : GoString :=
  if n = 0 then [48] else decDigitsAux n n

/-- Model of Go strconv.Itoa. -/
def goItoa (i : Int) : GoString :=
  if i < 0 then 45 :: natToDecimal i.natAbs else natToDecimal i.toNat

/-- RepoSpec.PathComponent (repositories.go lines 124-136).  The source
calls strings.HasPrefix with the constant as first argument, so it tests
whether "sourcegraph.com/" starts with s.URI; in that branch the slice
expression on s.URI panics whenever s.URI is shorter than the constant.
none models the panics (both the slice panic and the explicit
panic("empty RepoSpec")). -/
def RepoSpec.PathComponent (s : RepoSpec) : Option GoString :=
  if 0 < s.RID then some (goStr "R$" ++ goItoa s.RID)
  else if s.URI ≠ [] then
    if s.URI.isPrefixOf (goStr "sourcegraph.com/") then
      if (goStr "sourcegraph.com/").length ≤ s.URI.length then
        some (s.URI.drop (goStr "sourcegraph.com/").length)
      else none
    else some s.URI
  else none

/-- Route-variable map restricted to the three keys this codec ever reads
or writes ("RepoSpec", "Rev", "DeltaHeadRev"); a missing key reads as the
empty string, exactly as a missing key of a Go map does. -/
structure RouteVarMap where
  RepoSpec : GoString
  Rev : GoString
  DeltaHeadRev : GoString
deriving DecidableEq

/-- RepoSpec.RouteVars (repositories.go lines 140-142). -/
def RepoSpec.RouteVars (s : RepoSpec) : Option RouteVarMap :=
  (s.PathComponent).map (fun t => ⟨t, [], []⟩)

/-- ParseRepoSpec (repositories.go lines 147-164). -/
def ParseRepoSpec (pathComponent : GoString) : Except String RepoSpec :=
  if pathComponent = [] then .error "empty repository spec"
  else if (goStr "R$").isPrefixOf pathComponent then
    match goAtoi (pathComponent.drop 2) with
    | .ok rid => .ok ⟨[], rid⟩
    | .error e => .error e
  else
    let uri := if (goStr "sourcegraph/").isPrefixOf pathComponent
               then goStr "sourcegraph.com/" ++ pathComponent
               else pathComponent
    .ok ⟨uri, 0⟩

/-- UnmarshalRepoSpec (repositories.go lines 169-171). -/
def UnmarshalRepoSpec (routeVars : RouteVarMap) : Except String RepoSpec :=
  ParseRepoSpec routeVars.RepoSpec

/-- RepoRevSpec (repositories.go lines 207-211): a repository plus an
abstract revision and an optional resolved commit ID. -/
structure RepoRevSpec where
  RepoSpec : RepoSpec
  Rev : GoString
  CommitID : GoString
deriving DecidableEq

/-- RepoRevSpec.RevPathComponent (repositories.go lines 227-235); none
models the panic on empty Rev with non-empty CommitID. -/
def RepoRevSpec.RevPathComponent (s : RepoRevSpec) : Option GoString :=
  if s.Rev = [] ∧ s.CommitID ≠ [] then none
  else if s.CommitID ≠ [] then some (s.Rev ++ goStr "===" ++ s.CommitID)
  else some s.Rev

/-- RepoRevSpec.RouteVars (repositories.go lines 217-221). -/
def RepoRevSpec.RouteVars (s : RepoRevSpec) : Option RouteVarMap :=
  (s.RepoSpec.RouteVars).bind
    (fun m => (s.RevPathComponent).map (fun rev => ⟨m.RepoSpec, rev, m.DeltaHeadRev⟩))

/-- UnmarshalRepoRevSpec (repositories.go lines 240-260). -/
def UnmarshalRepoRevSpec (routeVars : RouteVarMap) : Except String RepoRevSpec :=
  match UnmarshalRepoSpec routeVars with
  | .error e => .error e
  | .ok repoSpec =>
    let p := splitRevToken routeVars.Rev
    if p.1 = [] ∧ p.2 ≠ [] then .error "invalid empty Rev but non-empty CommitID"
    else .ok ⟨repoSpec, p.1, p.2⟩

/-- Byte of the base64url alphabet at index i (RFC 4648 URL-safe alphabet,
used by Go base64.URLEncoding). -/
def b64c (i : Nat) : Nat :=
  if i < 26 then 65 + i
  else if i < 52 then 97 + (i - 26)
  else if i < 62 then 48 + (i - 52)
  else if i = 62 then 45
  else 95

/-- Index of a byte in the base64url alphabet, none for bytes outside it. -/
def b64index (c : Nat) : Option Nat :=
  if 65 ≤ c ∧ c ≤ 90 then some (c - 65)
  else if 97 ≤ c ∧ c ≤ 122 then some (26 + (c - 97))
  else if 48 ≤ c ∧ c ≤ 57 then some (52 + (c - 48))
  else if c = 45 then some 62
  else if c = 95 then some 63
  else none

/-- Go base64.URLEncoding.EncodeToString on a byte list ('=' padding). -/
def b64encode : List Nat → List Nat
  | [] => []
  | [b1] => [b64c (b1 / 4), b64c (b1 % 4 * 16), 61, 61]
  | [b1, b2] => [b64c (b1 / 4), b64c (b1 % 4 * 16 + b2 / 16), b64c (b2 % 16 * 4), 61]
  | b1 :: b2 :: b3 :: rest =>
    b64c (b1 / 4) :: b64c (b1 % 4 * 16 + b2 / 16) :: b64c (b2 % 16 * 4 + b3 / 64) ::
      b64c (b3 % 64) :: b64encode rest

/-- Go base64.URLEncoding.DecodeString; none on corrupt input (length not
a multiple of four, byte outside the alphabet, or padding not terminal). -/
def b64decode : List Nat → Option (List Nat)
  | [] => some []
  | c1 :: c2 :: c3 :: c4 :: rest =>
    match b64index c1, b64index c2 with
    | some i1, some i2 =>
      if c3 = 61 then
        if c4 = 61 ∧ rest = [] then some [i1 * 4 + i2 / 16] else none
      else
        match b64index c3 with
        | some i3 =>
          if c4 = 61 then
            if rest = [] then some [i1 * 4 + i2 / 16, i2 % 16 * 16 + i3 / 4] else none
          else
            match b64index c4 with
            | some i4 =>
              (b64decode rest).map
                (fun bs => (i1 * 4 + i2 / 16) :: (i2 % 16 * 16 + i3 / 4) :: (i3 % 4 * 64 + i4) :: bs)
            | none => none
        | none => none
    | _, _ => none
  | _ => none

/-- DeltaSpec (deltas.go lines 57-60): a pair of repository revisions. -/
structure DeltaSpec where
  Base : RepoRevSpec
  Head : RepoRevSpec
deriving DecidableEq

/-- encodeCrossRepoRevSpecForDeltaHeadRev (deltas.go lines 75-77). -/
def encodeCrossRepoRevSpecForDeltaHeadRev (rr : RepoRevSpec) : Option GoString :=
  (rr.RepoSpec.PathComponent).bind
    (fun pc => (rr.RevPathComponent).map (fun rpc => b64encode pc ++ goStr ":" ++ rpc))

/-- DeltaSpec.RouteVars (deltas.go lines 64-73). -/
def DeltaSpec.RouteVars (s : DeltaSpec) : Option RouteVarMap :=
  (s.Base.RouteVars).bind (fun m =>
    (if s.Base.RepoSpec = s.Head.RepoSpec then s.Head.RevPathComponent
     else encodeCrossRepoRevSpecForDeltaHeadRev s.Head).map
      (fun dhr => ⟨m.RepoSpec, m.Rev, dhr⟩))

/-- UnmarshalDeltaSpec (deltas.go lines 82-116). -/
def UnmarshalDeltaSpec (routeVars : RouteVarMap) : Except String DeltaSpec :=
  match UnmarshalRepoRevSpec routeVars with
  | .error e => .error e
  | .ok base =>
    let dhr := routeVars.DeltaHeadRev
    match goIndexAux (goStr ":") dhr with
    | some i =>
      match b64decode (dhr.take i) with
      | none => .error "illegal base64 data"
      | some repoPC =>
        match UnmarshalRepoRevSpec ⟨repoPC, dhr.drop (i + 1), []⟩ with
        | .error e => .error e
        | .ok rr => .ok ⟨base, rr⟩
    | none =>
      match UnmarshalRepoRevSpec ⟨routeVars.RepoSpec, dhr, []⟩ with
      | .error e => .error e
      | .ok rr => .ok ⟨base, rr⟩

/-- Stand-in for the Def record referenced by DefDelta.  The delta
classification inspects only the presence (nil or not) of the Base and
Head pointers and never their payload, so the payload is immaterial. -/
structure Def where
deriving DecidableEq

/-- DefDelta (deltas.go lines 177-180): optional before and after versions
of a changed definition; Option models the Go pointers' nil-ness. -/
structure DefDelta where
  Base : Option Def
  Head : Option Def
deriving DecidableEq

/-- DefDelta.Added (deltas.go line 184). -/
def DefDelta.Added (dd : DefDelta) : Bool := dd.Base.isNone && dd.Head.isSome

/-- DefDelta.Changed (deltas.go line 188). -/
def DefDelta.Changed (dd : DefDelta) : Bool := dd.Base.isSome && dd.Head.isSome

/-- DefDelta.Deleted (deltas.go line 192). -/
def DefDelta.Deleted (dd : DefDelta) : Bool := dd.Base.isSome && dd.Head.isNone

/-- Bytes of a Go string are below 256. -/
def isByteString (s : GoString) : Prop := ∀ c ∈ s, c < 256

instance (s : GoString) : Decidable (isByteString s) := by
  unfold isByteString; exact inferInstance

/-- Valid repository identifier in the sense of the claims: either a
numeric-ID identifier (positive RID, inside the 64-bit Go int range, URI
unset) or a URI identifier (nonempty byte string not starting with
"R$", RID at its zero value). -/
def validRepoSpec (s : RepoSpec) : Prop :=
  (0 < s.RID ∧ s.RID < 2 ^ 63 ∧ s.URI = []) ∨
  (s.RID = 0 ∧ s.URI ≠ [] ∧ isByteString s.URI ∧ ¬ (goStr "R$").isPrefixOf s.URI)

instance (s : RepoSpec) : Decidable (validRepoSpec s) := by
  unfold validRepoSpec; exact inferInstance

/-- Valid revision identifier in the sense of the claims: valid repository
and either no commit ID, or a non-empty commit ID with a non-empty rev. -/
def validRepoRevSpec (v : RepoRevSpec) : Prop :=
  validRepoSpec v.RepoSpec ∧ (v.CommitID = [] ∨ (v.CommitID ≠ [] ∧ v.Rev ≠ []))

instance (v : RepoRevSpec) : Decidable (validRepoRevSpec v) := by
  unfold validRepoRevSpec; exact inferInstance

/-- Whether an Except value is an error. -/
def isError {α : Type} : Except String α → Bool
  | .error _ => true
  | .ok _ => false

/-- Revision token produced by RevPathComponent on non-panicking input:
the rev alone when the commit ID is empty, otherwise rev ++ "===" ++ cid. -/
def revTok (rev cid : GoString) : GoString :=
  if cid = [] then rev else rev ++ goStr "===" ++ cid

theorem isPrefixOf_eq_take : ∀ (sub s : GoString), sub.isPrefixOf s = true ↔ s.take sub.length = sub
  | [], s => by simp [List.isPrefixOf]
  | c :: t, [] => by simp [List.isPrefixOf]
  | c :: t, d :: u => by
    simp only [List.isPrefixOf, List.length_cons, List.take_succ_cons, Bool.and_eq_true,
      beq_iff_eq, List.cons.injEq]
    constructor
    · rintro ⟨h1, h2⟩
      exact ⟨h1.symm, (isPrefixOf_eq_take t u).mp h2⟩
    · rintro ⟨h1, h2⟩
      exact ⟨h1.symm, (isPrefixOf_eq_take t u).mpr h2⟩

theorem isPrefixOf_append_self (l r : GoString) : l.isPrefixOf (l ++ r) = true := by
  rw [isPrefixOf_eq_take]
  exact List.take_left l r

theorem isPrefixOf_of_append (sub X Y : GoString) (hlen : sub.length ≤ X.length)
    (h : sub.isPrefixOf (X ++ Y) = true) : sub.isPrefixOf X = true := by
  rw [isPrefixOf_eq_take] at h ⊢
  rwa [List.take_append_of_le_length hlen] at h

theorem goIndexAux_none (sub : GoString) :
    ∀ (s : GoString), goIndexAux sub s = none → ∀ j, ¬ sub.isPrefixOf (s.drop j) = true
  | [], h, j => by
    simp only [goIndexAux] at h
    by_cases hp : sub.isPrefixOf ([] : GoString) = true
    · rw [if_pos hp] at h
      exact absurd h (by simp)
    · simpa using hp
  | c :: t, h, j => by
    simp only [goIndexAux] at h
    by_cases hp : sub.isPrefixOf (c :: t) = true
    · rw [if_pos hp] at h
      exact absurd h (by simp)
    · rw [if_neg hp] at h
      have ht : goIndexAux sub t = none := by
        cases hx : goIndexAux sub t with
        | none => rfl
        | some i => rw [hx] at h; exact absurd h (by simp)
      cases j with
      | zero => simpa using hp
      | succ k => exact goIndexAux_none sub t ht k

theorem goIndexAux_locate (sub : GoString) :
    ∀ (pre post : GoString), sub.isPrefixOf post = true →
      (∀ j, j < pre.length → ¬ sub.isPrefixOf ((pre ++ post).drop j) = true) →
      goIndexAux sub (pre ++ post) = some pre.length
  | [], post, h, _ => by
    cases post with
    | nil => simp_all [goIndexAux]
    | cons c t => simp_all [goIndexAux]
  | c :: t, post, h, hmin => by
    have hrec := goIndexAux_locate sub t post h
      (fun j hj => by
        have := hmin (j + 1) (by simpa using Nat.succ_lt_succ hj)
        simpa using this)
    simp only [List.cons_append, goIndexAux, List.append_eq]
    rw [if_neg (by simpa using hmin 0 (by simp))]
    rw [hrec]
    simp

theorem hasSub_of_isPrefixOf_drop (s sub : GoString) (j : Nat)
    (h : sub.isPrefixOf (s.drop j) = true) : hasSub s sub = true := by
  unfold hasSub
  cases hx : goIndexAux sub s with
  | none => exact absurd h (goIndexAux_none sub s hx j)
  | some i => simp

theorem goIndexAux_of_hasSub_eq_false (s sub : GoString) (h : hasSub s sub = false) :
    goIndexAux sub s = none := by
  unfold hasSub at h
  cases hx : goIndexAux sub s with
  | none => rfl
  | some i => rw [hx] at h; exact absurd h (by simp)

theorem goIndexAux_single_none (c : Nat) :
    ∀ (s : GoString), c ∉ s → goIndexAux [c] s = none
  | [], _ => by simp [goIndexAux, List.isPrefixOf]
  | d :: t, h => by
    have hcd : (c == d) = false := by
      simp only [beq_eq_false_iff_ne, ne_eq]
      intro e
      exact h (by simp [e])
    have ht : goIndexAux [c] t = none := goIndexAux_single_none c t (fun hm => h (by simp [hm]))
    simp [goIndexAux, List.isPrefixOf, hcd, ht]

theorem hasSub_single_eq_false (s : GoString) (c : Nat) (h : c ∉ s) : hasSub s [c] = false := by
  unfold hasSub
  rw [goIndexAux_single_none c s h]
  rfl

theorem goIndexAux_boundary (sub mid : GoString) (b : Nat) (pre cid : GoString)
    (hm : sub = mid ++ [b])
    (hno : hasSub (pre ++ mid) sub = false) :
    goIndexAux sub (pre ++ (sub ++ cid)) = some pre.length := by
  apply goIndexAux_locate sub pre (sub ++ cid) (isPrefixOf_append_self sub cid)
  intro j hj hpre
  have he : pre ++ (sub ++ cid) = (pre ++ mid) ++ ([b] ++ cid) := by
    rw [hm]
    simp [List.append_assoc]
  rw [he] at hpre
  have hj2 : j ≤ (pre ++ mid).length := by
    simp only [List.length_append]
    omega
  rw [List.drop_append_of_le_length hj2] at hpre
  have hlen : sub.length ≤ ((pre ++ mid).drop j).length := by
    simp only [List.length_drop, List.length_append, hm, List.length_singleton]
    omega
  have hX := isPrefixOf_of_append sub _ _ hlen hpre
  have hS := hasSub_of_isPrefixOf_drop (pre ++ mid) sub j hX
  rw [hno] at hS
  exact absurd hS (by simp)

theorem splitRevToken_no_sep (rev : GoString) (h : hasSub rev (goStr "===") = false) :
    splitRevToken rev = (rev, []) := by
  unfold splitRevToken
  rw [goIndexAux_of_hasSub_eq_false rev (goStr "===") h]

theorem splitRevToken_append (rev cid : GoString)
    (h : hasSub (rev ++ goStr "==") (goStr "===") = false) :
    splitRevToken (rev ++ goStr "===" ++ cid) = (rev, cid) := by
  unfold splitRevToken
  have hidx : goIndexAux (goStr "===") (rev ++ (goStr "===" ++ cid)) = some rev.length :=
    goIndexAux_boundary (goStr "===") (goStr "==") 61 rev cid (by decide) h
  rw [List.append_assoc, hidx]
  show (List.take rev.length (rev ++ (goStr "===" ++ cid)),
    List.drop (rev.length + 3) (rev ++ (goStr "===" ++ cid))) = (rev, cid)
  have h3 : (goStr "===").length = 3 := by decide
  rw [Prod.mk.injEq]
  constructor
  · exact List.take_left rev _
  · rw [← List.append_assoc]
    exact List.drop_left' (by rw [List.length_append, h3])

theorem decDigitsAux_digits :
    ∀ (fuel n : Nat), n ≤ fuel → ∀ c ∈ decDigitsAux fuel n, 48 ≤ c ∧ c ≤ 57
  | 0, n, _ => by simp [decDigitsAux]
  | fuel + 1, n, h => by
    by_cases h0 : n = 0
    · simp [decDigitsAux, h0]
    · simp only [decDigitsAux, if_neg h0, List.mem_append, List.mem_singleton]
      intro c hc
      rcases hc with hc | hc
      · exact decDigitsAux_digits fuel (n / 10) (by omega) c hc
      · subst hc
        have := Nat.mod_lt n (show 0 < 10 by norm_num)
        omega

theorem decDigitsAux_foldl :
    ∀ (fuel n acc : Nat), n ≤ fuel →
      List.foldl (fun a c => a * 10 + (c - 48)) acc (decDigitsAux fuel n) =
        acc * 10 ^ (decDigitsAux fuel n).length + n
  | 0, n, acc, h => by
    simp only [decDigitsAux, List.foldl_nil, List.length_nil, pow_zero, mul_one]
    omega
  | fuel + 1, n, acc, h => by
    by_cases h0 : n = 0
    · simp [decDigitsAux, h0]
    · simp only [decDigitsAux, if_neg h0, List.foldl_append, List.foldl_cons, List.foldl_nil,
        List.length_append, List.length_singleton]
      rw [decDigitsAux_foldl fuel (n / 10) acc (by omega)]
      rw [pow_succ, ← mul_assoc]
      have hdm := Nat.div_add_mod n 10
      have key : ∀ Y : Nat, (Y + n / 10) * 10 + (48 + n % 10 - 48) = Y * 10 + n := by
        intro Y
        omega
      exact key (acc * 10 ^ (decDigitsAux fuel (n / 10)).length)

theorem decDigitsAux_ne_nil (fuel n : Nat) (h0 : 0 < n) (h : n ≤ fuel) :
    decDigitsAux fuel n ≠ [] := by
  cases fuel with
  | zero => omega
  | succ f =>
    simp only [decDigitsAux, if_neg (show n ≠ 0 by omega)]
    simp

theorem natToDecimal_digits (n : Nat) : ∀ c ∈ natToDecimal n, 48 ≤ c ∧ c ≤ 57 := by
  unfold natToDecimal
  split
  · intro c hc
    simp only [List.mem_singleton] at hc
    omega
  · exact decDigitsAux_digits n n le_rfl

theorem natToDecimal_ne_nil (n : Nat) : natToDecimal n ≠ [] := by
  unfold natToDecimal
  split
  · simp
  · exact decDigitsAux_ne_nil n n (by omega) le_rfl

theorem digitsVal_natToDecimal (n : Nat) : digitsVal (natToDecimal n) = some n := by
  unfold digitsVal
  rw [if_neg (natToDecimal_ne_nil n)]
  rw [if_pos (by
    rw [List.all_eq_true]
    intro c hc
    exact decide_eq_true (natToDecimal_digits n c hc))]
  by_cases h0 : n = 0
  · subst h0
    decide
  · unfold natToDecimal
    rw [if_neg h0]
    rw [decDigitsAux_foldl n n 0 le_rfl]
    simp

theorem goAtoi_natToDecimal (n : Nat) (h : (n : Int) < 2 ^ 63) : goAtoi (natToDecimal n) = .ok n := by
  obtain ⟨c, t, hct⟩ : ∃ c t, natToDecimal n = c :: t := by
    cases hx : natToDecimal n with
    | nil => exact absurd hx (natToDecimal_ne_nil n)
    | cons c t => exact ⟨c, t, rfl⟩
  have hc : 48 ≤ c ∧ c ≤ 57 := natToDecimal_digits n c (by rw [hct]; exact List.mem_cons_self c t)
  rw [hct]
  simp only [goAtoi]
  rw [if_neg (show ¬ (c = 43 ∨ c = 45) by omega)]
  rw [← hct, digitsVal_natToDecimal]
  show (if c = 45 then
      if (n : Int) ≤ 2 ^ 63 then Except.ok (-(n : Int)) else Except.error "value out of range"
    else if (n : Int) < 2 ^ 63 then Except.ok (n : Int)
    else Except.error "value out of range") = Except.ok (n : Int)
  rw [if_neg (show ¬ c = 45 by omega)]
  rw [if_pos h]

theorem b64index_b64c : ∀ i : Nat, i < 64 → b64index (b64c i) = some i := by decide

theorem b64c_ne_61 : ∀ i : Nat, i < 64 → b64c i ≠ 61 := by decide

theorem b64c_ne_58 (i : Nat) : b64c i ≠ 58 := by
  unfold b64c
  split_ifs <;> omega

theorem b64_roundtrip : ∀ (bs : List Nat), (∀ b ∈ bs, b < 256) → b64decode (b64encode bs) = some bs
  | [], _ => by simp [b64encode, b64decode]
  | [b1], h => by
    have hb1 : b1 < 256 := h b1 (by simp)
    have e1 := b64index_b64c (b1 / 4) (by omega)
    have e2 := b64index_b64c (b1 % 4 * 16) (by omega)
    simp [b64encode, b64decode, e1, e2]
    omega
  | [b1, b2], h => by
    have hb1 : b1 < 256 := h b1 (by simp)
    have hb2 : b2 < 256 := h b2 (by simp)
    have e1 := b64index_b64c (b1 / 4) (by omega)
    have e2 := b64index_b64c (b1 % 4 * 16 + b2 / 16) (by omega)
    have e3 := b64index_b64c (b2 % 16 * 4) (by omega)
    have n3 := b64c_ne_61 (b2 % 16 * 4) (by omega)
    simp [b64encode, b64decode, e1, e2, e3, n3]
    constructor <;> omega
  | b1 :: b2 :: b3 :: rest, h => by
    have hb1 : b1 < 256 := h b1 (by simp)
    have hb2 : b2 < 256 := h b2 (by simp)
    have hb3 : b3 < 256 := h b3 (by simp)
    have ih := b64_roundtrip rest (fun b hb => h b (by simp [hb]))
    have e1 := b64index_b64c (b1 / 4) (by omega)
    have e2 := b64index_b64c (b1 % 4 * 16 + b2 / 16) (by omega)
    have e3 := b64index_b64c (b2 % 16 * 4 + b3 / 64) (by omega)
    have e4 := b64index_b64c (b3 % 64) (by omega)
    have n3 := b64c_ne_61 (b2 % 16 * 4 + b3 / 64) (by omega)
    have n4 := b64c_ne_61 (b3 % 64) (by omega)
    simp [b64encode, b64decode, e1, e2, e3, e4, n3, n4, ih]
    refine ⟨by omega, by omega, by omega⟩

theorem b64encode_no_colon : ∀ (bs : List Nat), ∀ c ∈ b64encode bs, c ≠ 58
  | [], c, hc => by simp [b64encode] at hc
  | [b1], c, hc => by
    simp only [b64encode, List.mem_cons, List.not_mem_nil, or_false] at hc
    rcases hc with rfl | rfl | rfl | rfl
    · exact b64c_ne_58 _
    · exact b64c_ne_58 _
    · decide
    · decide
  | [b1, b2], c, hc => by
    simp only [b64encode, List.mem_cons, List.not_mem_nil, or_false] at hc
    rcases hc with rfl | rfl | rfl | rfl
    · exact b64c_ne_58 _
    · exact b64c_ne_58 _
    · exact b64c_ne_58 _
    · decide
  | b1 :: b2 :: b3 :: rest, c, hc => by
    simp only [b64encode, List.mem_cons] at hc
    rcases hc with rfl | rfl | rfl | rfl | hm
    · exact b64c_ne_58 _
    · exact b64c_ne_58 _
    · exact b64c_ne_58 _
    · exact b64c_ne_58 _
    · exact b64encode_no_colon rest c hm

theorem b64encode_not_mem_colon (bs : List Nat) : (58 : Nat) ∉ b64encode bs := by
  intro hm
  exact b64encode_no_colon bs 58 hm rfl

theorem parse_R_append (rest : GoString) :
    ParseRepoSpec (goStr "R$" ++ rest) =
      match goAtoi rest with
      | .ok rid => .ok ⟨[], rid⟩
      | .error e => .error e := by
  have hR : goStr "R$" = [82, 36] := by decide
  unfold ParseRepoSpec
  rw [if_neg (by rw [hR]; simp)]
  rw [if_pos (isPrefixOf_append_self _ _)]
  rw [show (goStr "R$" ++ rest).drop 2 = rest from by rw [hR]; rfl]

theorem pathComponent_parse (x : RepoSpec) (hv : validRepoSpec x)
    (h1 : ¬ (goStr "sourcegraph/").isPrefixOf x.URI = true)
    (h2 : x.URI ≠ [] → ¬ x.URI.isPrefixOf (goStr "sourcegraph.com/") = true) :
    ∃ t, x.PathComponent = some t ∧ ParseRepoSpec t = .ok x ∧ isByteString t := by
  obtain ⟨u, r⟩ := x
  simp only [] at h1 h2
  rcases hv with ⟨hpos, hlt, huri⟩ | ⟨hrid, hne, hbytes, hnr⟩
  · simp only [] at hpos hlt huri
    subst huri
    refine ⟨goStr "R$" ++ goItoa r, ?_, ?_, ?_⟩
    · unfold RepoSpec.PathComponent
      rw [if_pos hpos]
    · have hitoa : goItoa r = natToDecimal r.toNat := by
        unfold goItoa
        rw [if_neg (by omega)]
      have hntn : ((r.toNat : Nat) : Int) = r := Int.toNat_of_nonneg (by omega)
      have hatoi : goAtoi (natToDecimal r.toNat) = .ok r := by
        rw [goAtoi_natToDecimal r.toNat (by omega)]
        rw [hntn]
      rw [hitoa, parse_R_append, hatoi]
    · intro c hc
      have hR : goStr "R$" = [82, 36] := by decide
      rw [hR] at hc
      simp only [List.mem_append, List.mem_cons, List.not_mem_nil, or_false] at hc
      rcases hc with (rfl | rfl) | hm
      · omega
      · omega
      · have hd : ∀ c ∈ goItoa r, 48 ≤ c ∧ c ≤ 57 := by
          unfold goItoa
          rw [if_neg (by omega)]
          exact natToDecimal_digits r.toNat
        have := hd c hm
        omega
  · simp only [] at hrid hne hbytes hnr
    refine ⟨u, ?_, ?_, hbytes⟩
    · unfold RepoSpec.PathComponent
      rw [if_neg (by simp only []; omega), if_pos (by simpa using hne), if_neg (h2 hne)]
    · unfold ParseRepoSpec
      rw [if_neg hne, if_neg hnr]
      simp only [if_neg h1]
      rw [hrid]

theorem revPathComponent_eq (v : RepoRevSpec) (hv : v.CommitID = [] ∨ v.Rev ≠ []) :
    v.RevPathComponent = some (revTok v.Rev v.CommitID) := by
  unfold RepoRevSpec.RevPathComponent revTok
  by_cases hc : v.CommitID = []
  · rw [if_neg (by tauto), if_neg (by tauto), if_pos hc]
  · have hrev : v.Rev ≠ [] := hv.resolve_left hc
    rw [if_neg (by tauto), if_pos hc, if_neg hc]

theorem unmarshalRepoRev_mk (t rev cid dhr : GoString) (x : RepoSpec)
    (hparse : ParseRepoSpec t = .ok x)
    (h0 : cid = [] ∨ rev ≠ [])
    (h1 : hasSub rev (goStr "===") = false)
    (h2 : cid ≠ [] → hasSub (rev ++ goStr "==") (goStr "===") = false) :
    UnmarshalRepoRevSpec ⟨t, revTok rev cid, dhr⟩ = .ok ⟨x, rev, cid⟩ := by
  unfold UnmarshalRepoRevSpec UnmarshalRepoSpec
  simp only []
  rw [hparse]
  by_cases hc : cid = []
  · subst hc
    have hs : splitRevToken (revTok rev []) = (rev, []) := by
      unfold revTok
      rw [if_pos rfl]
      exact splitRevToken_no_sep rev h1
    rw [hs]
    simp
  · have hs : splitRevToken (revTok rev cid) = (rev, cid) := by
      unfold revTok
      rw [if_neg hc]
      exact splitRevToken_append rev cid (h2 hc)
    rw [hs]
    have hrev : rev ≠ [] := h0.resolve_left hc
    simp only []
    rw [if_neg (by simp [hrev])]

theorem routeVars_eq (v : RepoRevSpec) (t : GoString)
    (hpc : v.RepoSpec.PathComponent = some t)
    (hv : v.CommitID = [] ∨ v.Rev ≠ []) :
    v.RouteVars = some ⟨t, revTok v.Rev v.CommitID, []⟩ := by
  unfold RepoRevSpec.RouteVars RepoSpec.RouteVars
  rw [hpc, revPathComponent_eq v hv]
  rfl

theorem unmarshalDelta_same (rv : RouteVarMap) (base head : RepoRevSpec)
    (hbase : UnmarshalRepoRevSpec rv = .ok base)
    (hnc : goIndexAux (goStr ":") rv.DeltaHeadRev = none)
    (hhead : UnmarshalRepoRevSpec ⟨rv.RepoSpec, rv.DeltaHeadRev, []⟩ = .ok head) :
    UnmarshalDeltaSpec rv = .ok ⟨base, head⟩ := by
  unfold UnmarshalDeltaSpec
  simp only [hbase, hnc, hhead]

theorem unmarshalDelta_cross (rv : RouteVarMap) (base head : RepoRevSpec) (i : Nat)
    (repoPC : GoString)
    (hbase : UnmarshalRepoRevSpec rv = .ok base)
    (hidx : goIndexAux (goStr ":") rv.DeltaHeadRev = some i)
    (hb64 : b64decode (rv.DeltaHeadRev.take i) = some repoPC)
    (hhead : UnmarshalRepoRevSpec ⟨repoPC, rv.DeltaHeadRev.drop (i + 1), []⟩ = .ok head) :
    UnmarshalDeltaSpec rv = .ok ⟨base, head⟩ := by
  unfold UnmarshalDeltaSpec
  simp only [hbase, hidx, hb64, hhead]

theorem goIndexAux_colon_boundary (B R : GoString) (hB : (58 : Nat) ∉ B) :
    goIndexAux (goStr ":") (B ++ (goStr ":" ++ R)) = some B.length := by
  apply goIndexAux_boundary (goStr ":") [] 58 B R (by decide)
  rw [List.append_nil]
  rw [show goStr ":" = [58] from by decide]
  exact hasSub_single_eq_false B 58 hB

theorem take_colon_boundary (B R : GoString) :
    (B ++ (goStr ":" ++ R)).take B.length = B :=
  List.take_left B _

theorem drop_colon_boundary (B R : GoString) :
    (B ++ (goStr ":" ++ R)).drop (B.length + 1) = R := by
  rw [show goStr ":" = [58] from by decide, ← List.append_assoc]
  exact List.drop_left' (by simp)

/-- Claim C1 as stated is false: the URI "sourcegraph/x" is a valid URI
identifier (non-empty, not starting with "R$"), but its path component
parses back with "sourcegraph.com/" prepended by the decode-side
rewriting, so decode(encode(x)) differs from x. -/
theorem claimC1_counterexample :
    validRepoSpec ⟨goStr "sourcegraph/x", 0⟩ ∧
    (RepoSpec.PathComponent ⟨goStr "sourcegraph/x", 0⟩).map ParseRepoSpec =
      some (.ok ⟨goStr "sourcegraph.com/sourcegraph/x", 0⟩) ∧
    (⟨goStr "sourcegraph.com/sourcegraph/x", 0⟩ : RepoSpec) ≠ ⟨goStr "sourcegraph/x", 0⟩ :=
  ⟨by decide, by decide, by decide⟩

/-- Claim C1 (amended): for every valid RepoSpec x (numeric-ID identifier
with positive RID, or URI identifier with non-empty URI not starting with
"R$"), where in the URI-identifier case the URI moreover does not start
with "sourcegraph/" and is not a prefix of "sourcegraph.com/",
ParseRepoSpec(x.PathComponent()) returns x with no error.  Numeric-ID
identifiers carry no extra condition. -/
theorem claimC1 (x : RepoSpec) (hv : validRepoSpec x)
    (h1 : ¬ (goStr "sourcegraph/").isPrefixOf x.URI = true)
    (h2 : x.URI ≠ [] → ¬ x.URI.isPrefixOf (goStr "sourcegraph.com/") = true) :
    (x.PathComponent).map ParseRepoSpec = some (.ok x) := by
  obtain ⟨t, hpc, hparse, _⟩ := pathComponent_parse x hv h1 h2
  rw [hpc, Option.map_some', hparse]

theorem claimC1_witness :
    (RepoSpec.PathComponent ⟨[], 5⟩).map ParseRepoSpec = some (.ok ⟨[], 5⟩) ∧
    (RepoSpec.PathComponent ⟨goStr "x.com/y", 0⟩).map ParseRepoSpec =
      some (.ok ⟨goStr "x.com/y", 0⟩) :=
  ⟨claimC1 ⟨[], 5⟩ (by decide) (by decide) (fun h => absurd rfl h),
   claimC1 ⟨goStr "x.com/y", 0⟩ (by decide) (by decide) (fun _ => by decide)⟩

/-- Claim C2 describes the intended prefix stripping, but the code swaps
the strings.HasPrefix arguments: on URI "sourcegraph.com/x" it returns
the URI unchanged instead of "x", and on the shorter URI "sourcegraph."
(a proper prefix of the constant) the slice is out of range and the call
panics instead of returning the URI unchanged. -/
theorem claimC2_code_eval :
    RepoSpec.PathComponent ⟨goStr "sourcegraph.com/x", 0⟩ = some (goStr "sourcegraph.com/x") ∧
    RepoSpec.PathComponent ⟨goStr "sourcegraph.", 0⟩ = none :=
  ⟨by decide, by decide⟩

/-- Claim C3 as stated is false: the valid revision identifier with Rev
"a===b" and no commit ID encodes to the token "a===b", which decodes to
Rev "a" with CommitID "b". -/
theorem claimC3_counterexample :
    validRepoRevSpec ⟨⟨goStr "x.com/r", 0⟩, goStr "a===b", []⟩ ∧
    (RepoRevSpec.RouteVars ⟨⟨goStr "x.com/r", 0⟩, goStr "a===b", []⟩).map UnmarshalRepoRevSpec =
      some (.ok ⟨⟨goStr "x.com/r", 0⟩, goStr "a", goStr "b"⟩) ∧
    (⟨⟨goStr "x.com/r", 0⟩, goStr "a", goStr "b"⟩ : RepoRevSpec) ≠
      ⟨⟨goStr "x.com/r", 0⟩, goStr "a===b", []⟩ :=
  ⟨by decide, by decide, by decide⟩

/-- Claim C3 (amended): for every valid RepoRevSpec v (valid RepoSpec and
either empty CommitID, or non-empty CommitID with non-empty Rev) whose
repository, when a URI identifier, has a URI that does not start with
"sourcegraph/" and is not a prefix of "sourcegraph.com/" (numeric-ID
repositories carry no extra condition), whose Rev does not contain "===",
and whose Rev does not end with "=" when CommitID is non-empty (stated
below as: the string Rev ++ "==" does not contain "==="),
UnmarshalRepoRevSpec(v.RouteVars()) returns v with no error. -/
theorem claimC3 (v : RepoRevSpec) (hv : validRepoRevSpec v)
    (h1 : ¬ (goStr "sourcegraph/").isPrefixOf v.RepoSpec.URI = true)
    (h2 : v.RepoSpec.URI ≠ [] → ¬ v.RepoSpec.URI.isPrefixOf (goStr "sourcegraph.com/") = true)
    (h3 : hasSub v.Rev (goStr "===") = false)
    (h4 : v.CommitID ≠ [] → hasSub (v.Rev ++ goStr "==") (goStr "===") = false) :
    (v.RouteVars).map UnmarshalRepoRevSpec = some (.ok v) := by
  obtain ⟨t, hpc, hparse, _⟩ := pathComponent_parse v.RepoSpec hv.1 h1 h2
  have hv2 : v.CommitID = [] ∨ v.Rev ≠ [] := by
    rcases hv.2 with h | h
    · exact Or.inl h
    · exact Or.inr h.2
  rw [routeVars_eq v t hpc hv2, Option.map_some',
    unmarshalRepoRev_mk t v.Rev v.CommitID [] v.RepoSpec hparse hv2 h3 h4]

theorem claimC3_witness :
    (RepoRevSpec.RouteVars ⟨⟨[], 5⟩, goStr "master", []⟩).map UnmarshalRepoRevSpec =
      some (.ok ⟨⟨[], 5⟩, goStr "master", []⟩) ∧
    (RepoRevSpec.RouteVars ⟨⟨goStr "x.com/r", 0⟩, goStr "r", goStr "abc"⟩).map
        UnmarshalRepoRevSpec =
      some (.ok ⟨⟨goStr "x.com/r", 0⟩, goStr "r", goStr "abc"⟩) :=
  ⟨claimC3 ⟨⟨[], 5⟩, goStr "master", []⟩ (by decide) (by decide) (fun h => absurd rfl h)
    (by decide) (fun h => absurd rfl h),
   claimC3 ⟨⟨goStr "x.com/r", 0⟩, goStr "r", goStr "abc"⟩ (by decide) (by decide)
    (fun _ => by decide) (by decide) (fun _ => by decide)⟩

/-- Claim C6: RevPathComponent fails fatally (modelled as none) exactly
when Rev is empty and CommitID is non-empty; otherwise it returns
Rev ++ "===" ++ CommitID when CommitID is non-empty and Rev alone
otherwise. -/
theorem claimC6 (s : RepoRevSpec) :
    (s.RevPathComponent = none ↔ s.Rev = [] ∧ s.CommitID ≠ []) ∧
    ((s.Rev ≠ [] ∨ s.CommitID = []) →
      s.RevPathComponent =
        some (if s.CommitID ≠ [] then s.Rev ++ goStr "===" ++ s.CommitID else s.Rev)) := by
  unfold RepoRevSpec.RevPathComponent
  by_cases h1 : s.Rev = [] ∧ s.CommitID ≠ []
  · rw [if_pos h1]
    constructor
    · simp [h1]
    · intro h
      rcases h with h | h
      · exact absurd h1.1 h
      · exact absurd h h1.2
  · rw [if_neg h1]
    constructor
    · constructor
      · intro h
        by_cases h2 : s.CommitID ≠ [] <;> simp [h2] at h
      · intro h
        exact absurd h h1
    · intro _
      by_cases h2 : s.CommitID ≠ []
      · rw [if_pos h2, if_pos h2]
      · rw [if_neg h2, if_neg h2]

theorem claimC6_witness :
    RepoRevSpec.RevPathComponent ⟨⟨goStr "x", 0⟩, [], goStr "c"⟩ = none ∧
    RepoRevSpec.RevPathComponent ⟨⟨goStr "x", 0⟩, goStr "r", goStr "c"⟩ =
      some (goStr "r===c") := by
  constructor
  · exact (claimC6 ⟨⟨goStr "x", 0⟩, [], goStr "c"⟩).1.mpr (by decide)
  · have h := (claimC6 ⟨⟨goStr "x", 0⟩, goStr "r", goStr "c"⟩).2 (by decide)
    rw [h]
    decide

/-- Claim C7: any route-variable map whose Rev value splits at the first
"===" into an empty rev and a non-empty commit ID makes
UnmarshalRepoRevSpec return an error (the embedding is total, so no panic
is possible); this holds whether or not the repository token decodes. -/
theorem claimC7 (m : RouteVarMap)
    (h1 : (splitRevToken m.Rev).1 = [])
    (h2 : (splitRevToken m.Rev).2 ≠ []) :
    isError (UnmarshalRepoRevSpec m) = true := by
  unfold UnmarshalRepoRevSpec
  cases hx : UnmarshalRepoSpec m with
  | error e => rfl
  | ok repoSpec =>
    simp only []
    rw [if_pos ⟨h1, h2⟩]
    rfl

theorem claimC7_witness :
    isError (UnmarshalRepoRevSpec ⟨goStr "x", goStr "===abc", []⟩) = true :=
  claimC7 ⟨goStr "x", goStr "===abc", []⟩ (by decide) (by decide)

/-- Claim C8: ParseRepoSpec errors on the empty token; on a token
"R$" ++ rest it propagates the Atoi error when rest is not a valid
decimal integer, and returns the numeric-ID RepoSpec with that RID and
no error when it is. -/
theorem claimC8 :
    isError (ParseRepoSpec []) = true ∧
    (∀ rest : GoString, ∀ e : String, goAtoi rest = .error e →
      ParseRepoSpec (goStr "R$" ++ rest) = .error e) ∧
    (∀ rest : GoString, ∀ n : Int, goAtoi rest = .ok n →
      ParseRepoSpec (goStr "R$" ++ rest) = .ok ⟨[], n⟩) := by
  refine ⟨by decide, ?_, ?_⟩
  · intro rest e h
    rw [parse_R_append, h]
  · intro rest n h
    rw [parse_R_append, h]

theorem claimC8_witness :
    ParseRepoSpec (goStr "R$x") = .error "invalid syntax" ∧
    ParseRepoSpec (goStr "R$12") = .ok ⟨[], 12⟩ := by
  have he1 : goStr "R$" ++ goStr "x" = goStr "R$x" := by decide
  have he2 : goStr "R$" ++ goStr "12" = goStr "R$12" := by decide
  constructor
  · have h := claimC8.2.1 (goStr "x") "invalid syntax" (by decide)
    rwa [he1] at h
  · have h := claimC8.2.2 (goStr "12") 12 (by decide)
    rwa [he2] at h

/-- Claim C9: Added holds exactly when Base is absent and Head present,
Changed exactly when both are present, Deleted exactly when Base is
present and Head absent; the three are pairwise exclusive, and when both
sides are absent none of them holds. -/
theorem claimC9 (dd : DefDelta) :
    (dd.Added = true ↔ dd.Base = none ∧ dd.Head ≠ none) ∧
    (dd.Changed = true ↔ dd.Base ≠ none ∧ dd.Head ≠ none) ∧
    (dd.Deleted = true ↔ dd.Base ≠ none ∧ dd.Head = none) ∧
    ¬ (dd.Added = true ∧ dd.Changed = true) ∧
    ¬ (dd.Added = true ∧ dd.Deleted = true) ∧
    ¬ (dd.Changed = true ∧ dd.Deleted = true) ∧
    (dd.Base = none ∧ dd.Head = none →
      dd.Added = false ∧ dd.Changed = false ∧ dd.Deleted = false) := by
  obtain ⟨b, h⟩ := dd
  cases b <;> cases h <;>
    simp [DefDelta.Added, DefDelta.Changed, DefDelta.Deleted]

theorem claimC9_witness :
    DefDelta.Added ⟨none, none⟩ = false ∧ DefDelta.Changed ⟨none, none⟩ = false ∧
      DefDelta.Deleted ⟨none, none⟩ = false :=
  (claimC9 ⟨none, none⟩).2.2.2.2.2.2 ⟨rfl, rfl⟩

/-- Claim C10: the non-empty tokens "R$0" and "R$-3" parse with no error
into RepoSpec values with RID at most zero and empty URI, which are not
valid identifiers, and PathComponent panics (none) on both. -/
theorem claimC10 :
    ParseRepoSpec (goStr "R$0") = .ok ⟨[], 0⟩ ∧
    ParseRepoSpec (goStr "R$-3") = .ok ⟨[], -3⟩ ∧
    ¬ validRepoSpec ⟨[], 0⟩ ∧ ¬ validRepoSpec ⟨[], -3⟩ ∧
    RepoSpec.PathComponent ⟨[], 0⟩ = none ∧
    RepoSpec.PathComponent ⟨[], -3⟩ = none :=
  ⟨by decide, by decide, by decide, by decide, by decide, by decide⟩

/-- Claim C4 as stated is false: a valid same-repository delta whose head
rev is "a:b" produces the DeltaHeadRev token "a:b", which does contain a
":" (and in fact fails to decode, being taken for a cross-repository
token with invalid base64). -/
theorem claimC4_counterexample :
    validRepoRevSpec ⟨⟨goStr "r.com/x", 0⟩, goStr "v1", []⟩ ∧
    validRepoRevSpec ⟨⟨goStr "r.com/x", 0⟩, goStr "a:b", []⟩ ∧
    (DeltaSpec.RouteVars ⟨⟨⟨goStr "r.com/x", 0⟩, goStr "v1", []⟩,
        ⟨⟨goStr "r.com/x", 0⟩, goStr "a:b", []⟩⟩).map
        (fun m => hasSub m.DeltaHeadRev (goStr ":")) = some true :=
  ⟨by decide, by decide, by decide⟩

/-- Claim C4 (amended): for every valid DeltaSpec with equal Base and Head
repositories whose shared repository round-trips (for URI identifiers:
URI not starting with "sourcegraph/" nor a prefix of "sourcegraph.com/";
numeric-ID repositories carry no extra condition), whose rev tokens
split back (revs free of "===", and of a trailing "=" when a commit ID is
present), and whose head Rev and CommitID contain no ":" byte, the
encoded DeltaHeadRev contains no ":" and UnmarshalDeltaSpec reconstructs
the delta, in particular the head revision under the shared repository. -/
theorem claimC4 (d : DeltaSpec)
    (hb : validRepoRevSpec d.Base) (hh : validRepoRevSpec d.Head)
    (heq : d.Base.RepoSpec = d.Head.RepoSpec)
    (h1 : ¬ (goStr "sourcegraph/").isPrefixOf d.Base.RepoSpec.URI = true)
    (h2 : d.Base.RepoSpec.URI ≠ [] →
      ¬ d.Base.RepoSpec.URI.isPrefixOf (goStr "sourcegraph.com/") = true)
    (hb3 : hasSub d.Base.Rev (goStr "===") = false)
    (hb4 : d.Base.CommitID ≠ [] → hasSub (d.Base.Rev ++ goStr "==") (goStr "===") = false)
    (hh3 : hasSub d.Head.Rev (goStr "===") = false)
    (hh4 : d.Head.CommitID ≠ [] → hasSub (d.Head.Rev ++ goStr "==") (goStr "===") = false)
    (hc1 : (58 : Nat) ∉ d.Head.Rev) (hc2 : (58 : Nat) ∉ d.Head.CommitID) :
    (d.RouteVars).map (fun m => (hasSub m.DeltaHeadRev (goStr ":"), UnmarshalDeltaSpec m)) =
      some (false, .ok d) := by
  obtain ⟨t, hpc, hparse, _⟩ := pathComponent_parse d.Base.RepoSpec hb.1 h1 h2
  have hbv : d.Base.CommitID = [] ∨ d.Base.Rev ≠ [] := by
    rcases hb.2 with h | h
    · exact Or.inl h
    · exact Or.inr h.2
  have hhv : d.Head.CommitID = [] ∨ d.Head.Rev ≠ [] := by
    rcases hh.2 with h | h
    · exact Or.inl h
    · exact Or.inr h.2
  have hcol : (58 : Nat) ∉ revTok d.Head.Rev d.Head.CommitID := by
    unfold revTok
    split
    · exact hc1
    · intro hm
      rcases List.mem_append.mp hm with hm | hm
      · rcases List.mem_append.mp hm with hm | hm
        · exact hc1 hm
        · revert hm
          decide
      · exact hc2 hm
  have h58 : hasSub (revTok d.Head.Rev d.Head.CommitID) (goStr ":") = false := by
    rw [show goStr ":" = [58] from by decide]
    exact hasSub_single_eq_false _ 58 hcol
  have hum : UnmarshalDeltaSpec
      ⟨t, revTok d.Base.Rev d.Base.CommitID, revTok d.Head.Rev d.Head.CommitID⟩ = .ok d := by
    apply unmarshalDelta_same _ d.Base d.Head
    · exact unmarshalRepoRev_mk t _ _ _ _ hparse hbv hb3 hb4
    · exact goIndexAux_of_hasSub_eq_false _ _ h58
    · have hparse2 : ParseRepoSpec t = .ok d.Head.RepoSpec := by
        rw [← heq]
        exact hparse
      exact unmarshalRepoRev_mk t _ _ _ _ hparse2 hhv hh3 hh4
  unfold DeltaSpec.RouteVars
  rw [routeVars_eq d.Base t hpc hbv, if_pos heq, revPathComponent_eq d.Head hhv]
  rw [Option.some_bind, Option.map_some', Option.map_some']
  rw [h58, hum]

theorem claimC4_witness :
    (DeltaSpec.RouteVars ⟨⟨⟨[], 5⟩, goStr "v1", []⟩,
        ⟨⟨[], 5⟩, goStr "v2", []⟩⟩).map
        (fun m => (hasSub m.DeltaHeadRev (goStr ":"), UnmarshalDeltaSpec m)) =
      some (false, .ok ⟨⟨⟨[], 5⟩, goStr "v1", []⟩, ⟨⟨[], 5⟩, goStr "v2", []⟩⟩) ∧
    (DeltaSpec.RouteVars ⟨⟨⟨goStr "r.com/x", 0⟩, goStr "v1", []⟩,
        ⟨⟨goStr "r.com/x", 0⟩, goStr "v2", []⟩⟩).map
        (fun m => (hasSub m.DeltaHeadRev (goStr ":"), UnmarshalDeltaSpec m)) =
      some (false, .ok ⟨⟨⟨goStr "r.com/x", 0⟩, goStr "v1", []⟩,
        ⟨⟨goStr "r.com/x", 0⟩, goStr "v2", []⟩⟩) :=
  ⟨claimC4 _ (by decide) (by decide) rfl (by decide) (fun h => absurd rfl h) (by decide)
    (fun _ => by decide) (by decide) (fun _ => by decide) (by decide) (by decide),
   claimC4 _ (by decide) (by decide) rfl (by decide) (fun _ => by decide) (by decide)
    (fun _ => by decide) (by decide) (fun _ => by decide) (by decide) (by decide)⟩

/-- Claim C5 as stated is false in its counting part: a valid
cross-repository delta whose head rev is "a:b" produces a DeltaHeadRev
token with two ":" bytes, not exactly one (decoding still reconstructs
the head, because the split is at the first ":"). -/
theorem claimC5_counterexample :
    validRepoRevSpec ⟨⟨goStr "r.com/x", 0⟩, goStr "v1", []⟩ ∧
    validRepoRevSpec ⟨⟨goStr "r.com/y", 0⟩, goStr "a:b", []⟩ ∧
    (⟨goStr "r.com/x", 0⟩ : RepoSpec) ≠ ⟨goStr "r.com/y", 0⟩ ∧
    (DeltaSpec.RouteVars ⟨⟨⟨goStr "r.com/x", 0⟩, goStr "v1", []⟩,
        ⟨⟨goStr "r.com/y", 0⟩, goStr "a:b", []⟩⟩).map
        (fun m => List.count 58 m.DeltaHeadRev) = some 2 :=
  ⟨by decide, by decide, by decide, by decide⟩

/-- Claim C5 (amended): for every valid DeltaSpec with different Base and
Head repositories, both round-trippable (for URI identifiers: URIs not
starting with "sourcegraph/" nor prefixes of "sourcegraph.com/";
numeric-ID repositories carry no extra condition) and with rev tokens
that split back (revs free of "===", and of a trailing "=" when a commit
ID is present), the encoded DeltaHeadRev equals base64url(head repository
token) ++ ":" ++ head revision token, its first ":" sits right after the
base64url part (which contains no ":"), and UnmarshalDeltaSpec
reconstructs the original delta, in particular the head repository and
revision exactly. -/
theorem claimC5 (d : DeltaSpec)
    (hb : validRepoRevSpec d.Base) (hh : validRepoRevSpec d.Head)
    (hneq : d.Base.RepoSpec ≠ d.Head.RepoSpec)
    (hb1 : ¬ (goStr "sourcegraph/").isPrefixOf d.Base.RepoSpec.URI = true)
    (hb2 : d.Base.RepoSpec.URI ≠ [] →
      ¬ d.Base.RepoSpec.URI.isPrefixOf (goStr "sourcegraph.com/") = true)
    (hb3 : hasSub d.Base.Rev (goStr "===") = false)
    (hb4 : d.Base.CommitID ≠ [] → hasSub (d.Base.Rev ++ goStr "==") (goStr "===") = false)
    (hh1 : ¬ (goStr "sourcegraph/").isPrefixOf d.Head.RepoSpec.URI = true)
    (hh2 : d.Head.RepoSpec.URI ≠ [] →
      ¬ d.Head.RepoSpec.URI.isPrefixOf (goStr "sourcegraph.com/") = true)
    (hh3 : hasSub d.Head.Rev (goStr "===") = false)
    (hh4 : d.Head.CommitID ≠ [] → hasSub (d.Head.Rev ++ goStr "==") (goStr "===") = false) :
    (d.RouteVars).map (fun m => m.DeltaHeadRev) =
      (d.Head.RepoSpec.PathComponent).map
        (fun u => b64encode u ++ goStr ":" ++ revTok d.Head.Rev d.Head.CommitID) ∧
    (d.RouteVars).map (fun m => goIndexAux (goStr ":") m.DeltaHeadRev) =
      (d.Head.RepoSpec.PathComponent).map (fun u => some (b64encode u).length) ∧
    (d.RouteVars).map UnmarshalDeltaSpec = some (.ok d) := by
  obtain ⟨t, hpc, hparse, _⟩ := pathComponent_parse d.Base.RepoSpec hb.1 hb1 hb2
  obtain ⟨u, hpcH, hparseH, hbytesH⟩ := pathComponent_parse d.Head.RepoSpec hh.1 hh1 hh2
  have hbv : d.Base.CommitID = [] ∨ d.Base.Rev ≠ [] := by
    rcases hb.2 with h | h
    · exact Or.inl h
    · exact Or.inr h.2
  have hhv : d.Head.CommitID = [] ∨ d.Head.Rev ≠ [] := by
    rcases hh.2 with h | h
    · exact Or.inl h
    · exact Or.inr h.2
  have hrv : d.RouteVars = some ⟨t, revTok d.Base.Rev d.Base.CommitID,
      b64encode u ++ goStr ":" ++ revTok d.Head.Rev d.Head.CommitID⟩ := by
    unfold DeltaSpec.RouteVars
    rw [routeVars_eq d.Base t hpc hbv, if_neg hneq]
    unfold encodeCrossRepoRevSpecForDeltaHeadRev
    rw [hpcH, revPathComponent_eq d.Head hhv]
    rfl
  have hBnc : (58 : Nat) ∉ b64encode u := b64encode_not_mem_colon u
  refine ⟨?_, ?_, ?_⟩
  · rw [hrv, hpcH, Option.map_some', Option.map_some']
  · rw [hrv, hpcH, Option.map_some', Option.map_some', List.append_assoc]
    rw [goIndexAux_colon_boundary _ _ hBnc]
  · rw [hrv, Option.map_some']
    have htake : (b64encode u ++ goStr ":" ++ revTok d.Head.Rev d.Head.CommitID).take
        (b64encode u).length = b64encode u := by
      rw [List.append_assoc]
      exact take_colon_boundary _ _
    have hdrop : (b64encode u ++ goStr ":" ++ revTok d.Head.Rev d.Head.CommitID).drop
        ((b64encode u).length + 1) = revTok d.Head.Rev d.Head.CommitID := by
      rw [List.append_assoc]
      exact drop_colon_boundary _ _
    have hum : UnmarshalDeltaSpec ⟨t, revTok d.Base.Rev d.Base.CommitID,
        b64encode u ++ goStr ":" ++ revTok d.Head.Rev d.Head.CommitID⟩ = .ok d := by
      apply unmarshalDelta_cross _ d.Base d.Head (b64encode u).length u
      · exact unmarshalRepoRev_mk t _ _ _ _ hparse hbv hb3 hb4
      · show goIndexAux (goStr ":")
          (b64encode u ++ goStr ":" ++ revTok d.Head.Rev d.Head.CommitID) =
          some (b64encode u).length
        rw [List.append_assoc]
        exact goIndexAux_colon_boundary _ _ hBnc
      · show b64decode ((b64encode u ++ goStr ":" ++
          revTok d.Head.Rev d.Head.CommitID).take (b64encode u).length) = some u
        rw [htake]
        exact b64_roundtrip u hbytesH
      · show UnmarshalRepoRevSpec ⟨u, (b64encode u ++ goStr ":" ++
          revTok d.Head.Rev d.Head.CommitID).drop ((b64encode u).length + 1), []⟩ =
          .ok d.Head
        rw [hdrop]
        exact unmarshalRepoRev_mk u _ _ _ _ hparseH hhv hh3 hh4
    rw [hum]

theorem claimC5_witness :
    (DeltaSpec.RouteVars ⟨⟨⟨[], 5⟩, goStr "v1", []⟩,
        ⟨⟨[], 7⟩, goStr "v2", []⟩⟩).map UnmarshalDeltaSpec =
      some (.ok ⟨⟨⟨[], 5⟩, goStr "v1", []⟩, ⟨⟨[], 7⟩, goStr "v2", []⟩⟩) ∧
    (DeltaSpec.RouteVars ⟨⟨⟨goStr "r.com/x", 0⟩, goStr "v1", []⟩,
        ⟨⟨goStr "r.com/y", 0⟩, goStr "v2", []⟩⟩).map UnmarshalDeltaSpec =
      some (.ok ⟨⟨⟨goStr "r.com/x", 0⟩, goStr "v1", []⟩,
        ⟨⟨goStr "r.com/y", 0⟩, goStr "v2", []⟩⟩) :=
  ⟨(claimC5 _ (by decide) (by decide) (by decide) (by decide) (fun h => absurd rfl h)
    (by decide) (fun _ => by decide) (by decide) (fun h => absurd rfl h) (by decide)
    (fun _ => by decide)).2.2,
   (claimC5 _ (by decide) (by decide) (by decide) (by decide) (fun _ => by decide)
    (by decide) (fun _ => by decide) (by decide) (fun _ => by decide) (by decide)
    (fun _ => by decide)).2.2⟩
